import Mathlib

/-!
The message store of go-long-polling and its bounded poll loop.

A shallow embedding of `main.go`:

* `Message`, `ChatService` with `CreateMessage` and `FindMessages`;
* the retry loop of `Server.FindMessagesHandler`.

Conventions of the embedding.

* `uuid.UUID` (a 16 byte array) is the number its bytes spell, `time.Time` is a
  number of nanoseconds counted from Go's zero instant; the zero values are `0`.
* `uuid.New()` and `time.Now().UTC()` read the environment, so their results are
  arguments of `CreateMessage`.
* `map[uuid.UUID]Message` is an association list in which a key is looked up by
  first match; `GoMap.set` is the map assignment `m[k] = v`.
* Go leaves the order of `range` over a map unspecified.  The order is driven by
  an explicit list of choices (`GoMap.rangeOrder`), and every ordering of the
  entries is produced by some list of choices (`GoMap.rangeOrder_complete`).
* The `sync.RWMutex` makes each operation atomic; an operation is one function
  application on the state.
-/

namespace LongPolling

/-- The type `uuid.UUID`: sixteen bytes, read as a number. -/
abbrev UUID := Nat

/-- The value `uuid.UUID{}` (all bytes zero). -/
def UUID.Nil : UUID := 0

/-- The type `time.Time`, as nanoseconds from the zero instant. -/
abbrev Time := Nat

/-- The Go `error` interface, carried as its message. -/
abbrev Error := String

deriving instance DecidableEq for Except

/-- The struct `Message`. -/
structure Message where
  ID : UUID
  CreatedAt : Time
  Body : String
  deriving DecidableEq, Repr

/-- The zero value `Message{}` that `make([]Message, n)` fills a slice with. -/
def Message.zero : Message := ⟨UUID.Nil, 0, ""⟩

/-- The type `map[uuid.UUID]Message`. -/
abbrev GoMap := List (UUID × Message)

namespace GoMap

/-- The literal `map[uuid.UUID]Message{}`. -/
def empty : GoMap := []

/-- The builtin `len(m)`. -/
def len (m : GoMap) : Nat := m.length

/-- The read `m[k]` with its presence flag. -/
def get? : GoMap → UUID → Option Message
  | [], _ => none
  | (k', v) :: rest, k => if k' = k then some v else get? rest k

/-- The assignment `m[k] = v`: overwrite the entry of `k` when there is one, add
an entry otherwise. -/
def set : GoMap → UUID → Message → GoMap
  | [], k, v => [(k, v)]
  | (k', v') :: rest, k, v => if k' = k then (k, v) :: rest else (k', v') :: set rest k v

/-- The keys of the map. -/
def keys (m : GoMap) : List UUID := m.map Prod.fst

/-- The values of the map. -/
def values (m : GoMap) : List Message := m.map Prod.snd

/-- The order in which `range` visits the entries.  At each step the next choice,
reduced modulo the number of entries not yet visited, selects the entry to visit;
when the choices run out the remaining entries are visited as stored. -/
def rangeOrder {α : Type} : List Nat → List α → List α
  | [], xs => xs
  | _ :: _, [] => []
  | c :: cs, x :: rest =>
    (x :: rest).getD (c % (rest.length + 1)) x ::
      rangeOrder cs ((x :: rest).eraseIdx (c % (rest.length + 1)))

end GoMap

/-- The struct `ChatService`; the mutex is the atomicity of each operation. -/
structure ChatService where
  messages : GoMap
  deriving DecidableEq, Repr

/-- The service built in `main`: an empty map. -/
def ChatService.new : ChatService := ⟨GoMap.empty⟩

/-- The method `ChatService.CreateMessage`.  `newID` is what `uuid.New()` returned
and `now` what `time.Now().UTC()` returned.  The result is the pair of Go return
values (as an `Except`) and the service after the call. -/
def ChatService.CreateMessage (service : ChatService) (body : String) (newID : UUID)
    (now : Time) : Except Error Message × ChatService :=
  let message : Message := ⟨newID, now, body⟩
  (.ok message, ⟨service.messages.set message.ID message⟩)

/-- The method `ChatService.FindMessages`.  `order` drives the order of the
`range` loop.  The slice starts as `make([]Message, len(service.messages))` and
every visited message is appended to it.  The service is returned as the call
leaves it. -/
def ChatService.FindMessages (service : ChatService) (after : Option UUID)
    (order : List Nat) : Except Error (List Message) × ChatService :=
  let _after : UUID := match after with
    | none => UUID.Nil
    | some a => a
  let messages : List Message := List.replicate service.messages.len Message.zero
  let messages := (GoMap.rangeOrder order service.messages).foldl
    (fun acc kv => acc ++ [kv.2]) messages
  (.ok messages, service)

/-- What the handler writes: `httpOk` with a body, or `httpError`. -/
inductive Response where
  | httpOk (resp : List Message)
  | httpError (err : Error)
  deriving DecidableEq, Repr

/-- The observable steps of the poll loop. -/
inductive Event where
  | query (attempt : Nat)
  | sleep (nanoseconds : Nat)
  deriving DecidableEq, Repr

/-- The constant `time.Second`, in nanoseconds. -/
def Second : Nat := 1000000000

/-- The response of a handler run and the steps it took, in order. -/
structure Outcome where
  response : Response
  trace : List Event
  deriving DecidableEq, Repr

/-- Number of `FindMessages` calls in a trace. -/
def queries (t : List Event) : Nat :=
  (t.filter (fun e => match e with | .query _ => true | .sleep _ => false)).length

/-- Number of `time.Sleep` calls in a trace. -/
def sleeps (t : List Event) : Nat :=
  (t.filter (fun e => match e with | .query _ => false | .sleep _ => true)).length

/-- What a running handler sees of the rest of the process: the service as it is
when attempt `i` (counted from 0) takes the read lock, and the order in which
that attempt ranges over the map. -/
structure PollEnv where
  store : Nat → ChatService
  order : Nat → List Nat

/-- The loop `for i := 0; i < 10; i++` of `FindMessagesHandler`, entered at
counter `i` with `remaining = 10 - i` iterations left. -/
def pollLoop (env : PollEnv) (afterUUID : UUID) : Nat → Nat → Outcome
  | 0, _ => ⟨.httpOk [], []⟩
  | remaining + 1, i =>
    match ((env.store i).FindMessages (some afterUUID) (env.order i)).1 with
    | .error err => ⟨.httpError err, [.query i]⟩
    | .ok messages =>
      if messages.length > 0 then
        ⟨.httpOk messages, [.query i]⟩
      else
        let rest := pollLoop env afterUUID remaining (i + 1)
        ⟨rest.response, .query i :: .sleep Second :: rest.trace⟩

/-- The method `Server.FindMessagesHandler`.  `parse` is `uuid.Parse`, `after` the
value of the query parameter of the same name. -/
def FindMessagesHandler (parse : String → Except Error UUID) (env : PollEnv)
    (after : String) : Outcome :=
  let after := if after = "" then "00000000-0000-0000-0000-000000000000" else after
  match parse after with
  | .error err => ⟨.httpError err, []⟩
  | .ok afterUUID => pollLoop env afterUUID 10 0

/-- One `CreateMessage` call: the body and what the environment supplied. -/
structure CreateCall where
  body : String
  id : UUID
  now : Time
  deriving DecidableEq, Repr

/-- The message a call builds. -/
def CreateCall.message (c : CreateCall) : Message := ⟨c.id, c.now, c.body⟩

/-- Run `CreateMessage` calls one after the other; the messages returned, in call
order, and the final service. -/
def runCreates : ChatService → List CreateCall → List (Except Error Message) × ChatService
  | service, [] => ([], service)
  | service, c :: cs =>
    let r := service.CreateMessage c.body c.id c.now
    let rs := runCreates r.2 cs
    (r.1 :: rs.1, rs.2)

/-- The result of the query made by attempt `i` of a poll with cursor `afterUUID`. -/
def findAt (env : PollEnv) (afterUUID : UUID) (i : Nat) : Except Error (List Message) :=
  ((env.store i).FindMessages (some afterUUID) (env.order i)).1

/-- The steps of `n` attempts that found nothing, the first one being attempt `i`:
each is a query followed by a sleep of one second. -/
def idleTrace : Nat → Nat → List Event
  | 0, _ => []
  | n + 1, i => .query i :: .sleep Second :: idleTrace n (i + 1)

/-! ## Sample data -/

/-- A first `CreateMessage` call, with a version 4 identifier. -/
def callA : CreateCall := ⟨"a", 0x9b2d5b4678134a4f8c2e0d6c1f3a7e10, 63898012800000000000⟩

/-- A second `CreateMessage` call. -/
def callB : CreateCall := ⟨"b", 0x3f0c1d2e5a6b4c7d9e8f102132435465, 63898012801000000000⟩

/-- A third `CreateMessage` call. -/
def callC : CreateCall := ⟨"hello", 0x7d44a1f09c3e4b12a5d6e7f801234567, 63898012802000000000⟩

/-- A stand-in for `uuid.Parse` that accepts the all-zero identifier only. -/
def parseNil (s : String) : Except Error UUID :=
  if s = "00000000-0000-0000-0000-000000000000" then .ok UUID.Nil else .error "invalid UUID"

/-- A poll environment in which the store is `ChatService.new` until attempt `k` and
holds the message of `callA` from then on; `range` visits the entries as stored. -/
def envFilledAt (k : Nat) : PollEnv :=
  ⟨fun i => if i < k then ChatService.new else (runCreates ChatService.new [callA]).2,
    fun _ => []⟩

/-! ## The order of `range` -/

theorem GoMap.getD_cons_eraseIdx_perm {α : Type} (l : List α) (i : Nat) (h : i < l.length)
    (d : α) : (l.getD i d :: l.eraseIdx i).Perm l := by
  induction l generalizing i with
  | nil => simp at h
  | cons a t ih =>
    cases i with
    | zero => simp
    | succ j =>
      have hj : j < t.length := by simpa using h
      have h1 : (t.getD j d :: a :: t.eraseIdx j).Perm (a :: t.getD j d :: t.eraseIdx j) :=
        List.Perm.swap _ _ _
      have h2 : (a :: t.getD j d :: t.eraseIdx j).Perm (a :: t) := (ih j hj).cons a
      simpa using h1.trans h2

/-- The loop `range` visits every entry once: the visiting order is a permutation of
the entries, whatever the choices. -/
theorem GoMap.rangeOrder_perm {α : Type} (cs : List Nat) (xs : List α) :
    (GoMap.rangeOrder cs xs).Perm xs := by
  induction cs generalizing xs with
  | nil => cases xs <;> simp [GoMap.rangeOrder]
  | cons c cs ih =>
    cases xs with
    | nil => simp [GoMap.rangeOrder]
    | cons x rest =>
      have hlt : c % (rest.length + 1) < (x :: rest).length := by
        simpa using Nat.mod_lt c (Nat.succ_pos rest.length)
      have h1 := ih ((x :: rest).eraseIdx (c % (rest.length + 1)))
      have h2 := GoMap.getD_cons_eraseIdx_perm (x :: rest) (c % (rest.length + 1)) hlt x
      simp only [GoMap.rangeOrder]
      exact (h1.cons _).trans h2

/-- Every ordering of the entries is the visiting order of some list of choices, so
the model does not exclude any order the Go runtime may pick. -/
theorem GoMap.rangeOrder_complete {α : Type} (ys xs : List α) (h : ys.Perm xs) :
    ∃ cs, GoMap.rangeOrder cs xs = ys := by
  induction ys generalizing xs with
  | nil =>
    have : xs = [] := by simpa using h.symm
    exact ⟨[], by simp [GoMap.rangeOrder, this]⟩
  | cons y ys ih =>
    cases xs with
    | nil => simp at h
    | cons x rest =>
      have hy : y ∈ x :: rest := h.subset (List.mem_cons_self y ys)
      obtain ⟨i, hi, hget⟩ := List.mem_iff_getElem.mp hy
      have hmod : i % (rest.length + 1) = i := Nat.mod_eq_of_lt (by simpa using hi)
      have hgetD : (x :: rest).getD i x = y := by
        rw [List.getD_eq_getElem _ _ hi]; exact hget
      have hp := GoMap.getD_cons_eraseIdx_perm (x :: rest) i hi x
      rw [hgetD] at hp
      have hys : ys.Perm ((x :: rest).eraseIdx i) := (h.trans hp.symm).cons_inv
      obtain ⟨cs, hcs⟩ := ih _ hys
      refine ⟨i :: cs, ?_⟩
      simp only [GoMap.rangeOrder, hmod, hgetD, hcs]

/-! ## The map -/

theorem GoMap.set_of_not_mem (m : GoMap) (k : UUID) (v : Message) (h : k ∉ m.keys) :
    m.set k v = m ++ [(k, v)] := by
  induction m with
  | nil => rfl
  | cons p rest ih =>
    obtain ⟨k', v'⟩ := p
    have hk : k' ≠ k := fun e => h (by simp [GoMap.keys, e])
    have hrest : k ∉ GoMap.keys rest := fun e => h (by
      simp only [GoMap.keys, List.map_cons, List.mem_cons]; exact Or.inr e)
    simp [GoMap.set, hk, ih hrest]

theorem GoMap.mem_set_self (m : GoMap) (k : UUID) (v : Message) : (k, v) ∈ m.set k v := by
  induction m with
  | nil => simp [GoMap.set]
  | cons p rest ih =>
    obtain ⟨k', v'⟩ := p
    by_cases hk : k' = k
    · simp [GoMap.set, hk]
    · simp only [GoMap.set, hk, if_false, List.mem_cons]; exact Or.inr ih

theorem GoMap.mem_set_of_ne (m : GoMap) (k k' : UUID) (v v' : Message) (hne : k' ≠ k)
    (h : (k, v) ∈ m) : (k, v) ∈ m.set k' v' := by
  induction m with
  | nil => simp at h
  | cons p rest ih =>
    obtain ⟨k₀, v₀⟩ := p
    by_cases hk : k₀ = k'
    · subst hk
      simp only [GoMap.set, if_true, List.mem_cons]
      rcases List.mem_cons.mp h with h | h
      · exact absurd (Prod.mk.inj h).1.symm hne
      · exact Or.inr h
    · simp only [GoMap.set, hk, if_false, List.mem_cons]
      rcases List.mem_cons.mp h with h | h
      · exact Or.inl h
      · exact Or.inr (ih h)

theorem GoMap.get?_set_self (m : GoMap) (k : UUID) (v : Message) :
    (m.set k v).get? k = some v := by
  induction m with
  | nil => simp [GoMap.set, GoMap.get?]
  | cons p rest ih =>
    obtain ⟨k', v'⟩ := p
    by_cases hk : k' = k
    · simp [GoMap.set, GoMap.get?, hk]
    · simp [GoMap.set, GoMap.get?, hk, ih]

theorem GoMap.get?_set_of_ne (m : GoMap) (k k' : UUID) (v : Message) (hne : k' ≠ k) :
    (m.set k v).get? k' = m.get? k' := by
  induction m with
  | nil => simp [GoMap.set, GoMap.get?, hne.symm]
  | cons p rest ih =>
    obtain ⟨k₀, v₀⟩ := p
    by_cases hk : k₀ = k
    · subst hk
      simp [GoMap.set, GoMap.get?, hne.symm]
    · by_cases hk' : k₀ = k'
      · subst hk'
        simp [GoMap.set, GoMap.get?, hk]
      · simp [GoMap.set, GoMap.get?, hk, hk', ih]

theorem GoMap.get?_eq_none_of_not_mem (m : GoMap) (k : UUID) (h : k ∉ m.keys) :
    m.get? k = none := by
  induction m with
  | nil => rfl
  | cons p rest ih =>
    obtain ⟨k', v'⟩ := p
    have hk : k' ≠ k := fun e => h (by simp [GoMap.keys, e])
    have hrest : k ∉ GoMap.keys rest := fun e => h (by
      simp only [GoMap.keys, List.map_cons, List.mem_cons]; exact Or.inr e)
    simp [GoMap.get?, hk, ih hrest]

/-! ## `FindMessages` in closed form -/

theorem foldl_append_snd (l : GoMap) (init : List Message) :
    l.foldl (fun acc kv => acc ++ [kv.2]) init = init ++ l.map Prod.snd := by
  induction l generalizing init with
  | nil => simp
  | cons p rest ih => simp [ih]

/-- The slice `FindMessages` returns: `len` zero values, then the visited messages. -/
theorem ChatService.FindMessages_eq (service : ChatService) (after : Option UUID)
    (order : List Nat) :
    service.FindMessages after order =
      (.ok (List.replicate service.messages.len Message.zero ++
        (GoMap.rangeOrder order service.messages).map Prod.snd), service) := by
  simp [ChatService.FindMessages, foldl_append_snd]

theorem ChatService.FindMessages_fst (service : ChatService) (after : Option UUID)
    (order : List Nat) :
    (service.FindMessages after order).1 =
      .ok (List.replicate service.messages.len Message.zero ++
        (GoMap.rangeOrder order service.messages).map Prod.snd) := by
  rw [ChatService.FindMessages_eq]

theorem GoMap.rangeOrder_values_perm (order : List Nat) (m : GoMap) :
    ((GoMap.rangeOrder order m).map Prod.snd).Perm m.values :=
  (GoMap.rangeOrder_perm order m).map Prod.snd

theorem GoMap.rangeOrder_values_length (order : List Nat) (m : GoMap) :
    ((GoMap.rangeOrder order m).map Prod.snd).length = m.len := by
  simpa [GoMap.values, GoMap.len] using (GoMap.rangeOrder_values_perm order m).length_eq

/-! ## Sequences of `CreateMessage` calls -/

theorem runCreates_mem_of_ne (service : ChatService) (later : List CreateCall) (k : UUID)
    (v : Message) (hmem : (k, v) ∈ service.messages) (hne : ∀ c ∈ later, c.id ≠ k) :
    (k, v) ∈ (runCreates service later).2.messages := by
  induction later generalizing service with
  | nil => simpa [runCreates] using hmem
  | cons c cs ih =>
    simp only [runCreates]
    apply ih
    · exact GoMap.mem_set_of_ne _ _ _ _ _ (hne c (List.mem_cons_self c cs)) hmem
    · exact fun c' hc' => hne c' (List.mem_cons_of_mem c hc')

theorem runCreates_fresh (service : ChatService) (calls : List CreateCall)
    (hfresh : ∀ c ∈ calls, c.id ∉ service.messages.keys)
    (hdistinct : (calls.map CreateCall.id).Nodup) :
    runCreates service calls =
      (calls.map (fun c => Except.ok c.message),
        ⟨service.messages ++ calls.map (fun c => (c.id, c.message))⟩) := by
  induction calls generalizing service with
  | nil => simp [runCreates]
  | cons c cs ih =>
    have hc : c.id ∉ service.messages.keys := hfresh c (List.mem_cons_self c cs)
    have hnd : c.id ∉ cs.map CreateCall.id ∧ (cs.map CreateCall.id).Nodup :=
      List.nodup_cons.mp hdistinct
    have hstep : (service.CreateMessage c.body c.id c.now).2 =
        ⟨service.messages ++ [(c.id, c.message)]⟩ := by
      simp [ChatService.CreateMessage, GoMap.set_of_not_mem _ _ _ hc, CreateCall.message]
    have hfresh' : ∀ c' ∈ cs,
        c'.id ∉ (service.CreateMessage c.body c.id c.now).2.messages.keys := by
      intro c' hc' hin
      rw [hstep] at hin
      simp only [GoMap.keys, List.map_append, List.map_cons, List.map_nil, List.mem_append,
        List.mem_singleton] at hin
      rcases hin with hin | hin
      · exact hfresh c' (List.mem_cons_of_mem c hc') hin
      · exact hnd.1 (by rw [← hin]; exact List.mem_map_of_mem CreateCall.id hc')
    simp only [runCreates]
    rw [ih _ hfresh' hnd.2, hstep]
    simp [ChatService.CreateMessage, CreateCall.message]

/-! ## The store: `CreateMessage` and `FindMessages` -/

/-- C1, evaluated on the code: after `CreateMessage("a")` and `CreateMessage("b")` on
the empty store the store holds 2 entries, yet `FindMessages(nil)` returns 4
elements, not 2, whatever the order of `range`: with the entries visited as stored
it returns two zero-valued messages followed by the two stored ones, and in no
order is the result a permutation of the values of the store. -/
theorem C1_findMessages_pads_the_result :
    (runCreates ChatService.new [callA, callB]).2.messages.len = 2 ∧
    ((runCreates ChatService.new [callA, callB]).2.FindMessages none []).1 =
      .ok [Message.zero, Message.zero, callA.message, callB.message] ∧
    ∀ order : List Nat, ∃ found,
      ((runCreates ChatService.new [callA, callB]).2.FindMessages none order).1 = .ok found ∧
      found.length = 4 ∧
      ¬ found.Perm (runCreates ChatService.new [callA, callB]).2.messages.values := by
  refine ⟨by decide, by decide, fun order => ⟨_, ChatService.FindMessages_fst _ _ _, ?_, ?_⟩⟩
  · rw [List.length_append, List.length_replicate, GoMap.rangeOrder_values_length]
    decide
  · intro hperm
    have hlen := hperm.length_eq
    rw [List.length_append, List.length_replicate, GoMap.rangeOrder_values_length] at hlen
    revert hlen
    decide

/-- C2: when `CreateMessage(body)` returns `M`, then `M` carries the supplied body,
and `FindMessages(cursor)` on the resulting store, directly (`later = []`) or after
further `CreateMessage` calls whose identifiers differ from that of `M`, returns a
sequence that contains `M` (equal in `ID`, `CreatedAt` and `Body`); `M` is among
the elements the loop appended, after the leading `len` slots. -/
theorem C2_created_message_is_found (service : ChatService) (body : String) (newID : UUID)
    (now : Time) (later : List CreateCall) (cursor : Option UUID) (order : List Nat)
    (hlater : ∀ c ∈ later, c.id ≠ newID) :
    ∃ M found,
      (service.CreateMessage body newID now).1 = .ok M ∧
      M = ⟨newID, now, body⟩ ∧ M.Body = body ∧
      ((runCreates (service.CreateMessage body newID now).2 later).2.FindMessages
        cursor order).1 = .ok found ∧
      M ∈ found ∧
      (∃ m ∈ found, m.ID = M.ID ∧ m.CreatedAt = M.CreatedAt ∧ m.Body = M.Body) ∧
      M ∈ found.drop
        (runCreates (service.CreateMessage body newID now).2 later).2.messages.len := by
  have hmem : (newID, (⟨newID, now, body⟩ : Message)) ∈
      (runCreates (service.CreateMessage body newID now).2 later).2.messages :=
    runCreates_mem_of_ne _ later newID _ (GoMap.mem_set_self _ _ _) hlater
  have hvis : (⟨newID, now, body⟩ : Message) ∈ (GoMap.rangeOrder order
      (runCreates (service.CreateMessage body newID now).2 later).2.messages).map Prod.snd :=
    (GoMap.rangeOrder_values_perm order _).symm.subset
      (List.mem_map_of_mem Prod.snd hmem)
  have hfound : (⟨newID, now, body⟩ : Message) ∈
      List.replicate (runCreates (service.CreateMessage body newID now).2 later).2.messages.len
        Message.zero ++ (GoMap.rangeOrder order
          (runCreates (service.CreateMessage body newID now).2 later).2.messages).map Prod.snd :=
    List.mem_append_right _ hvis
  refine ⟨⟨newID, now, body⟩, _, rfl, rfl, rfl, ChatService.FindMessages_fst _ _ _, hfound,
    ⟨_, hfound, rfl, rfl, rfl⟩, ?_⟩
  rw [List.drop_left' (List.length_replicate _ _)]
  exact hvis

/-- Witness of C2: `"hello"` is created on a store that holds one message, another
message is created afterwards, and the poll with a cursor finds it. -/
theorem C2_created_message_is_found_witness :
    (∀ c ∈ [callB], c.id ≠ callC.id) ∧
    ∃ M found,
      ((runCreates ChatService.new [callA]).2.CreateMessage "hello" callC.id callC.now).1
        = .ok M ∧
      M = ⟨callC.id, callC.now, "hello"⟩ ∧ M.Body = "hello" ∧
      ((runCreates ((runCreates ChatService.new [callA]).2.CreateMessage "hello" callC.id
        callC.now).2 [callB]).2.FindMessages (some callA.id) [2, 0]).1 = .ok found ∧
      M ∈ found ∧
      (∃ m ∈ found, m.ID = M.ID ∧ m.CreatedAt = M.CreatedAt ∧ m.Body = M.Body) ∧
      M ∈ found.drop
        (runCreates ((runCreates ChatService.new [callA]).2.CreateMessage "hello" callC.id
          callC.now).2 [callB]).2.messages.len :=
  ⟨by decide,
    C2_created_message_is_found (runCreates ChatService.new [callA]).2 "hello" callC.id
      callC.now [callB] (some callA.id) [2, 0] (by decide)⟩

/-- C3: the cursor is not applied as a filter.  For every store and every two
cursors (absent or any identifier, stored or not) both calls report no error and
return the same elements up to order; when `range` visits the entries in the same
order the two calls return the same pair outright. -/
theorem C3_cursor_is_not_a_filter (service : ChatService) (c1 c2 : Option UUID)
    (o1 o2 : List Nat) :
    (∃ r1 r2,
      (service.FindMessages c1 o1).1 = .ok r1 ∧
      (service.FindMessages c2 o2).1 = .ok r2 ∧
      r1.Perm r2 ∧ (r1 : Multiset Message) = (r2 : Multiset Message)) ∧
    service.FindMessages c1 o1 = service.FindMessages c2 o1 := by
  have hperm : (List.replicate service.messages.len Message.zero ++
        (GoMap.rangeOrder o1 service.messages).map Prod.snd).Perm
      (List.replicate service.messages.len Message.zero ++
        (GoMap.rangeOrder o2 service.messages).map Prod.snd) :=
    List.Perm.append_left _
      ((GoMap.rangeOrder_values_perm o1 _).trans (GoMap.rangeOrder_values_perm o2 _).symm)
  refine ⟨⟨_, _, ChatService.FindMessages_fst _ _ _, ChatService.FindMessages_fst _ _ _,
    hperm, Quotient.sound hperm⟩, ?_⟩
  rw [ChatService.FindMessages_eq, ChatService.FindMessages_eq]

/-- C4: when the generated identifier is not a key of the store, `CreateMessage`
reports no failure and returns the message built from its inputs; the store has one
more entry than before; the new entry is stored under the returned identifier and
equals the returned message; every entry present before is still present, and every
other key reads as it did before (nothing is updated or removed). -/
theorem C4_create_adds_exactly_one_entry (service : ChatService) (body : String)
    (newID : UUID) (now : Time) (hfresh : newID ∉ service.messages.keys) :
    ∃ M,
      (service.CreateMessage body newID now).1 = .ok M ∧
      M = ⟨newID, now, body⟩ ∧
      (service.CreateMessage body newID now).2.messages.len = service.messages.len + 1 ∧
      service.messages.get? M.ID = none ∧
      (service.CreateMessage body newID now).2.messages.get? M.ID = some M ∧
      (M.ID, M) ∈ (service.CreateMessage body newID now).2.messages ∧
      (∀ kv ∈ service.messages, kv ∈ (service.CreateMessage body newID now).2.messages) ∧
      (∀ k, k ≠ M.ID →
        (service.CreateMessage body newID now).2.messages.get? k = service.messages.get? k) ∧
      (∀ k m, service.messages.get? k = some m →
        (service.CreateMessage body newID now).2.messages.get? k = some m) ∧
      (service.CreateMessage body newID now).2.messages.values.Perm
        (M :: service.messages.values) := by
  have hset : (service.CreateMessage body newID now).2.messages =
      service.messages ++ [(newID, ⟨newID, now, body⟩)] := by
    simp [ChatService.CreateMessage, GoMap.set_of_not_mem _ _ _ hfresh]
  have hget : ∀ k, k ≠ newID →
      (service.CreateMessage body newID now).2.messages.get? k = service.messages.get? k :=
    fun k hk => GoMap.get?_set_of_ne _ _ _ _ hk
  refine ⟨⟨newID, now, body⟩, rfl, rfl, ?_, GoMap.get?_eq_none_of_not_mem _ _ hfresh,
    GoMap.get?_set_self _ _ _, GoMap.mem_set_self _ _ _, ?_, hget, ?_, ?_⟩
  · rw [hset]; simp [GoMap.len]
  · intro kv hkv; rw [hset]; exact List.mem_append_left _ hkv
  · intro k m hk
    by_cases hkn : k = newID
    · rw [hkn, GoMap.get?_eq_none_of_not_mem _ _ hfresh] at hk
      cases hk
    · rw [hget k hkn]; exact hk
  · rw [hset]
    simp only [GoMap.values, List.map_append, List.map_cons, List.map_nil]
    exact List.perm_append_singleton _ _

/-- Witness of C4: `"b"` is created on the store that holds message `"a"`. -/
theorem C4_create_adds_exactly_one_entry_witness :
    callB.id ∉ (runCreates ChatService.new [callA]).2.messages.keys ∧
    ∃ M,
      ((runCreates ChatService.new [callA]).2.CreateMessage "b" callB.id callB.now).1
        = .ok M ∧
      M = ⟨callB.id, callB.now, "b"⟩ ∧
      ((runCreates ChatService.new [callA]).2.CreateMessage "b" callB.id
        callB.now).2.messages.len = (runCreates ChatService.new [callA]).2.messages.len + 1 ∧
      (runCreates ChatService.new [callA]).2.messages.get? M.ID = none ∧
      ((runCreates ChatService.new [callA]).2.CreateMessage "b" callB.id
        callB.now).2.messages.get? M.ID = some M ∧
      (M.ID, M) ∈ ((runCreates ChatService.new [callA]).2.CreateMessage "b" callB.id
        callB.now).2.messages ∧
      (∀ kv ∈ (runCreates ChatService.new [callA]).2.messages,
        kv ∈ ((runCreates ChatService.new [callA]).2.CreateMessage "b" callB.id
          callB.now).2.messages) ∧
      (∀ k, k ≠ M.ID →
        ((runCreates ChatService.new [callA]).2.CreateMessage "b" callB.id
          callB.now).2.messages.get? k = (runCreates ChatService.new [callA]).2.messages.get? k) ∧
      (∀ k m, (runCreates ChatService.new [callA]).2.messages.get? k = some m →
        ((runCreates ChatService.new [callA]).2.CreateMessage "b" callB.id
          callB.now).2.messages.get? k = some m) ∧
      ((runCreates ChatService.new [callA]).2.CreateMessage "b" callB.id
        callB.now).2.messages.values.Perm
        (M :: (runCreates ChatService.new [callA]).2.messages.values) :=
  ⟨by decide,
    C4_create_adds_exactly_one_entry (runCreates ChatService.new [callA]).2 "b" callB.id
      callB.now (by decide)⟩

theorem GoMap.get?_of_mem_nodup (m : GoMap) (k : UUID) (v : Message) (hnd : m.keys.Nodup)
    (hmem : (k, v) ∈ m) : m.get? k = some v := by
  induction m with
  | nil => simp at hmem
  | cons p rest ih =>
    obtain ⟨k', v'⟩ := p
    have hnd' : k' ∉ GoMap.keys rest ∧ (GoMap.keys rest).Nodup :=
      List.nodup_cons.mp hnd
    rcases List.mem_cons.mp hmem with h | h
    · have h1 := (Prod.mk.inj h).1
      have h2 := (Prod.mk.inj h).2
      simp [GoMap.get?, h1, h2]
    · have hk : k' ≠ k := by
        intro e
        apply hnd'.1
        rw [e]
        exact List.mem_map_of_mem Prod.fst h
      simp [GoMap.get?, hk, ih hnd'.2 h]

theorem runCreates_new (calls : List CreateCall) (hdistinct : (calls.map CreateCall.id).Nodup) :
    runCreates ChatService.new calls =
      (calls.map (fun c => Except.ok c.message),
        ⟨calls.map (fun c => (c.id, c.message))⟩) := by
  have h := runCreates_fresh ChatService.new calls
    (by intro c _ hin; simp [ChatService.new, GoMap.empty, GoMap.keys] at hin) hdistinct
  simpa [ChatService.new, GoMap.empty] using h

/-- C5: no lost writes.  `N` calls of `CreateMessage` on the empty store, each one
atomic step, with pairwise distinct generated identifiers: every call reports no
failure; the store ends with exactly `N` entries, with pairwise distinct keys; the
stored messages are exactly the messages the calls returned, each readable under its
identifier; and taking the calls in another order leaves the same entries. -/
theorem C5_no_lost_writes (calls : List CreateCall)
    (hdistinct : (calls.map CreateCall.id).Nodup) :
    (runCreates ChatService.new calls).1 = calls.map (fun c => Except.ok c.message) ∧
    (runCreates ChatService.new calls).2.messages.len = calls.length ∧
    (runCreates ChatService.new calls).2.messages.keys.Nodup ∧
    (runCreates ChatService.new calls).2.messages.values.Perm
      (calls.map CreateCall.message) ∧
    (∀ c ∈ calls,
      (runCreates ChatService.new calls).2.messages.get? c.id = some c.message) ∧
    (∀ calls' : List CreateCall, calls'.Perm calls →
      (runCreates ChatService.new calls').2.messages.len = calls.length ∧
      (runCreates ChatService.new calls').2.messages.values.Perm
        (runCreates ChatService.new calls).2.messages.values) := by
  have hkeys : GoMap.keys (calls.map (fun c => (c.id, c.message))) =
      calls.map CreateCall.id := by
    simp [GoMap.keys, Function.comp_def]
  have hvalues : ∀ l : List CreateCall, GoMap.values (l.map (fun c => (c.id, c.message))) =
      l.map CreateCall.message := by
    intro l; simp [GoMap.values, Function.comp_def]
  rw [runCreates_new calls hdistinct]
  refine ⟨rfl, by simp [GoMap.len], by rw [hkeys]; exact hdistinct, ?_, ?_, ?_⟩
  · rw [hvalues]
  · intro c hc
    apply GoMap.get?_of_mem_nodup
    · rw [hkeys]; exact hdistinct
    · exact List.mem_map_of_mem (fun c => (c.id, c.message)) hc
  · intro calls' hperm
    have hdistinct' : (calls'.map CreateCall.id).Nodup :=
      ((hperm.map CreateCall.id).nodup_iff).mpr hdistinct
    rw [runCreates_new calls' hdistinct']
    refine ⟨by simpa [GoMap.len] using hperm.length_eq, ?_⟩
    rw [hvalues, hvalues]
    exact hperm.map CreateCall.message

/-- Witness of C5: three calls with distinct identifiers. -/
theorem C5_no_lost_writes_witness :
    ([callA, callB, callC].map CreateCall.id).Nodup ∧
    ((runCreates ChatService.new [callA, callB, callC]).1 =
        [callA, callB, callC].map (fun c => Except.ok c.message) ∧
      (runCreates ChatService.new [callA, callB, callC]).2.messages.len =
        [callA, callB, callC].length ∧
      (runCreates ChatService.new [callA, callB, callC]).2.messages.keys.Nodup ∧
      (runCreates ChatService.new [callA, callB, callC]).2.messages.values.Perm
        ([callA, callB, callC].map CreateCall.message) ∧
      (∀ c ∈ [callA, callB, callC],
        (runCreates ChatService.new [callA, callB, callC]).2.messages.get? c.id
          = some c.message) ∧
      (∀ calls' : List CreateCall, calls'.Perm [callA, callB, callC] →
        (runCreates ChatService.new calls').2.messages.len = [callA, callB, callC].length ∧
        (runCreates ChatService.new calls').2.messages.values.Perm
          (runCreates ChatService.new [callA, callB, callC]).2.messages.values)) :=
  ⟨by decide, C5_no_lost_writes [callA, callB, callC] (by decide)⟩

/-- C6: on a store with zero entries `FindMessages` returns the empty sequence and no
error, for every cursor and whatever the order of `range`. -/
theorem C6_find_on_empty_store (service : ChatService) (cursor : Option UUID)
    (order : List Nat) (hempty : service.messages.len = 0) :
    (service.FindMessages cursor order).1 = .ok [] ∧
    ∃ found, (service.FindMessages cursor order).1 = .ok found ∧ found.length = 0 := by
  have hnil : service.messages = [] := List.length_eq_zero.mp hempty
  have h : (service.FindMessages cursor order).1 = .ok [] := by
    rw [ChatService.FindMessages_fst, hnil]
    cases order <;> simp [GoMap.len, GoMap.rangeOrder]
  exact ⟨h, [], h, rfl⟩

/-- Witness of C6: the store built in `main`, polled with a cursor. -/
theorem C6_find_on_empty_store_witness :
    ChatService.new.messages.len = 0 ∧
    ((ChatService.new.FindMessages (some callA.id) [3, 1]).1 = .ok [] ∧
      ∃ found, (ChatService.new.FindMessages (some callA.id) [3, 1]).1 = .ok found ∧
        found.length = 0) :=
  ⟨by decide, C6_find_on_empty_store ChatService.new (some callA.id) [3, 1] (by decide)⟩

/-! ## The poll loop of `FindMessagesHandler` -/

theorem findAt_ok (env : PollEnv) (afterUUID : UUID) (i : Nat) :
    findAt env afterUUID i =
      .ok (List.replicate (env.store i).messages.len Message.zero ++
        (GoMap.rangeOrder (env.order i) (env.store i).messages).map Prod.snd) :=
  ChatService.FindMessages_fst _ _ _

theorem findAt_nil_iff (env : PollEnv) (afterUUID : UUID) (i : Nat) :
    findAt env afterUUID i = .ok [] ↔ (env.store i).messages.len = 0 := by
  rw [findAt_ok]
  constructor
  · intro h
    have h1 := congrArg List.length (Except.ok.inj h)
    rw [List.length_append, List.length_replicate, GoMap.rangeOrder_values_length] at h1
    simpa using h1
  · intro h
    have h1 : ((GoMap.rangeOrder (env.order i) (env.store i).messages).map Prod.snd) = [] := by
      apply List.eq_nil_of_length_eq_zero
      rw [GoMap.rangeOrder_values_length, h]
    rw [h, h1]
    rfl

theorem pollLoop_found (env : PollEnv) (afterUUID : UUID) (remaining i : Nat)
    (found : List Message) (hfind : findAt env afterUUID i = .ok found) (hne : found ≠ []) :
    pollLoop env afterUUID (remaining + 1) i = ⟨.httpOk found, [.query i]⟩ := by
  have hlen : 0 < found.length := List.length_pos.mpr hne
  unfold findAt at hfind
  simp only [pollLoop, hfind]
  simp [hlen]

theorem pollLoop_retry (env : PollEnv) (afterUUID : UUID) (remaining i : Nat)
    (hfind : findAt env afterUUID i = .ok []) :
    pollLoop env afterUUID (remaining + 1) i =
      ⟨(pollLoop env afterUUID remaining (i + 1)).response,
        .query i :: .sleep Second :: (pollLoop env afterUUID remaining (i + 1)).trace⟩ := by
  unfold findAt at hfind
  simp only [pollLoop, hfind]
  simp

theorem pollLoop_idle (env : PollEnv) (afterUUID : UUID) (n remaining i : Nat)
    (hidle : ∀ j, j < n → findAt env afterUUID (i + j) = .ok []) :
    pollLoop env afterUUID (n + remaining) i =
      ⟨(pollLoop env afterUUID remaining (i + n)).response,
        idleTrace n i ++ (pollLoop env afterUUID remaining (i + n)).trace⟩ := by
  induction n generalizing i with
  | zero => simp [idleTrace]
  | succ n ih =>
    have h0 : findAt env afterUUID i = .ok [] := by simpa using hidle 0 (Nat.succ_pos n)
    have hrest : ∀ j, j < n → findAt env afterUUID (i + 1 + j) = .ok [] := by
      intro j hj
      have := hidle (j + 1) (Nat.succ_lt_succ hj)
      rwa [show i + (j + 1) = i + 1 + j by omega] at this
    rw [show n + 1 + remaining = (n + remaining) + 1 by omega, pollLoop_retry _ _ _ _ h0,
      ih (i + 1) hrest, show i + 1 + n = i + (n + 1) by omega]
    simp [idleTrace]

theorem queries_cons_query (i : Nat) (t : List Event) :
    queries (.query i :: t) = queries t + 1 := by
  simp [queries]

theorem queries_cons_sleep (d : Nat) (t : List Event) :
    queries (.sleep d :: t) = queries t := by
  simp [queries]

theorem sleeps_cons_query (i : Nat) (t : List Event) :
    sleeps (.query i :: t) = sleeps t := by
  simp [sleeps]

theorem sleeps_cons_sleep (d : Nat) (t : List Event) :
    sleeps (.sleep d :: t) = sleeps t + 1 := by
  simp [sleeps]

theorem queries_idleTrace_append (n i : Nat) (t : List Event) :
    queries (idleTrace n i ++ t) = n + queries t := by
  induction n generalizing i with
  | zero => simp [idleTrace]
  | succ n ih =>
    simp only [idleTrace, List.cons_append, queries_cons_query, queries_cons_sleep, ih (i + 1)]
    omega

theorem sleeps_idleTrace_append (n i : Nat) (t : List Event) :
    sleeps (idleTrace n i ++ t) = n + sleeps t := by
  induction n generalizing i with
  | zero => simp [idleTrace]
  | succ n ih =>
    simp only [idleTrace, List.cons_append, sleeps_cons_query, sleeps_cons_sleep, ih (i + 1)]
    omega

/-- The two ways the loop ends: at the first attempt whose query is non-empty, with
that result, or after all its attempts found nothing, with the empty sequence. -/
theorem pollLoop_cases (env : PollEnv) (afterUUID : UUID) (remaining i : Nat) :
    (∃ k found, k < remaining ∧ (∀ j, j < k → findAt env afterUUID (i + j) = .ok []) ∧
      findAt env afterUUID (i + k) = .ok found ∧ found ≠ [] ∧
      pollLoop env afterUUID remaining i =
        ⟨.httpOk found, idleTrace k i ++ [.query (i + k)]⟩) ∨
    ((∀ j, j < remaining → findAt env afterUUID (i + j) = .ok []) ∧
      pollLoop env afterUUID remaining i = ⟨.httpOk [], idleTrace remaining i⟩) := by
  induction remaining generalizing i with
  | zero => exact Or.inr ⟨fun j hj => absurd hj (Nat.not_lt_zero j), rfl⟩
  | succ r ih =>
    by_cases h0 : findAt env afterUUID i = .ok []
    · rcases ih (i + 1) with ⟨k, found, hk, hidle, hfind, hne, hloop⟩ | ⟨hidle, hloop⟩
      · refine Or.inl ⟨k + 1, found, Nat.succ_lt_succ hk, ?_, ?_, hne, ?_⟩
        · intro j hj
          cases j with
          | zero => simpa using h0
          | succ j =>
            have := hidle j (Nat.lt_of_succ_lt_succ hj)
            rwa [show i + 1 + j = i + (j + 1) by omega] at this
        · rwa [show i + 1 + k = i + (k + 1) by omega] at hfind
        · rw [pollLoop_retry _ _ _ _ h0, hloop, show i + 1 + k = i + (k + 1) by omega]
          simp [idleTrace]
      · refine Or.inr ⟨?_, ?_⟩
        · intro j hj
          cases j with
          | zero => simpa using h0
          | succ j =>
            have := hidle j (Nat.lt_of_succ_lt_succ hj)
            rwa [show i + 1 + j = i + (j + 1) by omega] at this
        · rw [pollLoop_retry _ _ _ _ h0, hloop]
          simp [idleTrace]
    · have hne : List.replicate (env.store i).messages.len Message.zero ++
          (GoMap.rangeOrder (env.order i) (env.store i).messages).map Prod.snd ≠ [] := by
        intro e
        apply h0
        rw [findAt_ok, e]
      refine Or.inl ⟨0, _, Nat.succ_pos r, fun j hj => absurd hj (Nat.not_lt_zero j),
        findAt_ok env afterUUID i, hne, ?_⟩
      rw [pollLoop_found _ _ _ _ _ (findAt_ok env afterUUID i) hne]
      simp [idleTrace]

theorem FindMessagesHandler_of_valid (parse : String → Except Error UUID) (env : PollEnv)
    (after : String) (afterUUID : UUID)
    (hvalid : parse (if after = "" then "00000000-0000-0000-0000-000000000000" else after)
      = .ok afterUUID) :
    FindMessagesHandler parse env after = pollLoop env afterUUID 10 0 := by
  simp only [FindMessagesHandler, hvalid]

theorem runCreates_no_zero (service : ChatService) (calls : List CreateCall)
    (hstore : Message.zero ∉ service.messages.values)
    (hids : ∀ c ∈ calls, c.id ≠ UUID.Nil) :
    Message.zero ∉ (runCreates service calls).2.messages.values := by
  induction calls generalizing service with
  | nil => simpa [runCreates] using hstore
  | cons c cs ih =>
    simp only [runCreates]
    apply ih
    · intro hin
      obtain ⟨kv, hkv, hzero⟩ := List.mem_map.mp hin
      have hset : ∀ (m : GoMap) (p : UUID × Message),
          p ∈ m.set c.id ⟨c.id, c.now, c.body⟩ → p ∈ m ∨ p = (c.id, ⟨c.id, c.now, c.body⟩) := by
        intro m
        induction m with
        | nil => intro p hp; simpa [GoMap.set] using hp
        | cons q rest ihm =>
          intro p hp
          obtain ⟨k', v'⟩ := q
          by_cases hk : k' = c.id
          · simp only [GoMap.set, hk, if_true, List.mem_cons] at hp
            rcases hp with hp | hp
            · exact Or.inr hp
            · exact Or.inl (List.mem_cons_of_mem _ hp)
          · simp only [GoMap.set, hk, if_false, List.mem_cons] at hp
            rcases hp with hp | hp
            · exact Or.inl (by rw [hp]; exact List.mem_cons_self _ _)
            · rcases ihm p hp with h | h
              · exact Or.inl (List.mem_cons_of_mem _ h)
              · exact Or.inr h
      rcases hset _ kv hkv with h | h
      · exact hstore (List.mem_map.mpr ⟨kv, h, hzero⟩)
      · rw [h] at hzero
        have hid : c.id = UUID.Nil := congrArg Message.ID hzero
        exact hids c (List.mem_cons_self c cs) hid
    · exact fun c' hc' => hids c' (List.mem_cons_of_mem c hc')

/-- C7: when the store holds at least one message at the first attempt and the
cursor parses, the handler returns on its first attempt: one `FindMessages` query,
no sleep, and the response is `httpOk` with the non-empty result of that query. -/
theorem C7_poll_returns_on_first_attempt (parse : String → Except Error UUID)
    (env : PollEnv) (after : String) (afterUUID : UUID)
    (hvalid : parse (if after = "" then "00000000-0000-0000-0000-000000000000" else after)
      = .ok afterUUID)
    (hnonempty : 0 < (env.store 0).messages.len) :
    ∃ found,
      ((env.store 0).FindMessages (some afterUUID) (env.order 0)).1 = .ok found ∧
      found ≠ [] ∧
      FindMessagesHandler parse env after = ⟨.httpOk found, [.query 0]⟩ ∧
      queries (FindMessagesHandler parse env after).trace = 1 ∧
      sleeps (FindMessagesHandler parse env after).trace = 0 := by
  have hne : List.replicate (env.store 0).messages.len Message.zero ++
      (GoMap.rangeOrder (env.order 0) (env.store 0).messages).map Prod.snd ≠ [] := by
    intro e
    have h := (findAt_nil_iff env afterUUID 0).mp (by rw [findAt_ok, e])
    omega
  have hrun : FindMessagesHandler parse env after =
      ⟨.httpOk (List.replicate (env.store 0).messages.len Message.zero ++
        (GoMap.rangeOrder (env.order 0) (env.store 0).messages).map Prod.snd), [.query 0]⟩ := by
    rw [FindMessagesHandler_of_valid parse env after afterUUID hvalid]
    exact pollLoop_found env afterUUID 9 0 _ (findAt_ok env afterUUID 0) hne
  refine ⟨_, findAt_ok env afterUUID 0, hne, hrun, ?_, ?_⟩
  · rw [hrun]; rfl
  · rw [hrun]; rfl

/-- Witness of C7: a poll without cursor on a store that holds one message. -/
theorem C7_poll_returns_on_first_attempt_witness :
    (parseNil (if "" = "" then "00000000-0000-0000-0000-000000000000" else "") = .ok UUID.Nil ∧
      0 < ((envFilledAt 0).store 0).messages.len) ∧
    ∃ found,
      (((envFilledAt 0).store 0).FindMessages (some UUID.Nil) ((envFilledAt 0).order 0)).1
        = .ok found ∧
      found ≠ [] ∧
      FindMessagesHandler parseNil (envFilledAt 0) "" = ⟨.httpOk found, [.query 0]⟩ ∧
      queries (FindMessagesHandler parseNil (envFilledAt 0) "").trace = 1 ∧
      sleeps (FindMessagesHandler parseNil (envFilledAt 0) "").trace = 0 :=
  ⟨⟨by decide, by decide⟩,
    C7_poll_returns_on_first_attempt parseNil (envFilledAt 0) "" UUID.Nil (by decide)
      (by decide)⟩

/-- C8: when the store is empty at each of the ten attempts and the cursor parses,
the handler makes exactly 10 `FindMessages` queries and 10 sleeps of one second,
in alternation, and only then responds, through `httpOk`, with the empty sequence:
the tenth query (attempt 9) precedes the response. -/
theorem C8_poll_on_empty_store_runs_ten_attempts (parse : String → Except Error UUID)
    (env : PollEnv) (after : String) (afterUUID : UUID)
    (hvalid : parse (if after = "" then "00000000-0000-0000-0000-000000000000" else after)
      = .ok afterUUID)
    (hempty : ∀ i, i < 10 → (env.store i).messages.len = 0) :
    FindMessagesHandler parse env after =
      ⟨.httpOk [],
        [.query 0, .sleep Second, .query 1, .sleep Second, .query 2, .sleep Second,
          .query 3, .sleep Second, .query 4, .sleep Second, .query 5, .sleep Second,
          .query 6, .sleep Second, .query 7, .sleep Second, .query 8, .sleep Second,
          .query 9, .sleep Second]⟩ ∧
    queries (FindMessagesHandler parse env after).trace = 10 ∧
    sleeps (FindMessagesHandler parse env after).trace = 10 ∧
    Event.query 9 ∈ (FindMessagesHandler parse env after).trace ∧
    Second = 1000000000 := by
  have hidle : ∀ j, j < 10 → findAt env afterUUID (0 + j) = .ok [] := by
    intro j hj
    rw [Nat.zero_add]
    exact (findAt_nil_iff env afterUUID j).mpr (hempty j hj)
  have hrun : FindMessagesHandler parse env after = ⟨.httpOk [], idleTrace 10 0⟩ := by
    rw [FindMessagesHandler_of_valid parse env after afterUUID hvalid]
    have h := pollLoop_idle env afterUUID 10 0 0 hidle
    simpa [pollLoop] using h
  rw [hrun]
  exact ⟨rfl, rfl, rfl, by decide, rfl⟩

/-- Witness of C8: a poll without cursor while the store stays empty. -/
theorem C8_poll_on_empty_store_runs_ten_attempts_witness :
    (parseNil (if "" = "" then "00000000-0000-0000-0000-000000000000" else "") = .ok UUID.Nil ∧
      ∀ i, i < 10 → ((envFilledAt 10).store i).messages.len = 0) ∧
    (FindMessagesHandler parseNil (envFilledAt 10) "" =
      ⟨.httpOk [],
        [.query 0, .sleep Second, .query 1, .sleep Second, .query 2, .sleep Second,
          .query 3, .sleep Second, .query 4, .sleep Second, .query 5, .sleep Second,
          .query 6, .sleep Second, .query 7, .sleep Second, .query 8, .sleep Second,
          .query 9, .sleep Second]⟩ ∧
    queries (FindMessagesHandler parseNil (envFilledAt 10) "").trace = 10 ∧
    sleeps (FindMessagesHandler parseNil (envFilledAt 10) "").trace = 10 ∧
    Event.query 9 ∈ (FindMessagesHandler parseNil (envFilledAt 10) "").trace ∧
    Second = 1000000000) :=
  ⟨⟨by decide, by decide⟩,
    C8_poll_on_empty_store_runs_ten_attempts parseNil (envFilledAt 10) "" UUID.Nil
      (by decide) (by decide)⟩

/-- C9: for every sequence of store states seen by the successive attempts of a poll
whose cursor parses.  The handler makes at most 10 queries.  If attempt `k`
(counted from 0, so the `k+1`-th) is the first whose `FindMessages` result is
non-empty, the handler responds with exactly that result after `k + 1` queries and
`k` sleeps, the query of attempt `k` being its last step.  If no attempt finds
anything it responds with the empty sequence.  The response is always `httpOk`, and
its body is non-empty exactly when the store was non-empty at one of the attempts
made. -/
theorem C9_poll_returns_first_non_empty_result (parse : String → Except Error UUID)
    (env : PollEnv) (after : String) (afterUUID : UUID)
    (hvalid : parse (if after = "" then "00000000-0000-0000-0000-000000000000" else after)
      = .ok afterUUID) :
    queries (FindMessagesHandler parse env after).trace ≤ 10 ∧
    (∀ k found, k < 10 →
      (∀ j, j < k →
        ((env.store j).FindMessages (some afterUUID) (env.order j)).1 = .ok []) →
      ((env.store k).FindMessages (some afterUUID) (env.order k)).1 = .ok found →
      found ≠ [] →
      FindMessagesHandler parse env after =
        ⟨.httpOk found, idleTrace k 0 ++ [.query k]⟩ ∧
      queries (FindMessagesHandler parse env after).trace = k + 1 ∧
      sleeps (FindMessagesHandler parse env after).trace = k) ∧
    ((∀ j, j < 10 →
        ((env.store j).FindMessages (some afterUUID) (env.order j)).1 = .ok []) →
      FindMessagesHandler parse env after = ⟨.httpOk [], idleTrace 10 0⟩) ∧
    (∃ body, (FindMessagesHandler parse env after).response = .httpOk body ∧
      (body ≠ [] ↔ ∃ j, j < queries (FindMessagesHandler parse env after).trace ∧
        0 < (env.store j).messages.len)) := by
  rw [FindMessagesHandler_of_valid parse env after afterUUID hvalid]
  have hfoundAt : ∀ k found, k < 10 →
      (∀ j, j < k → findAt env afterUUID j = .ok []) →
      findAt env afterUUID k = .ok found → found ≠ [] →
      pollLoop env afterUUID 10 0 = ⟨.httpOk found, idleTrace k 0 ++ [.query k]⟩ := by
    intro k found hk hidle hfind hne
    have hidle' : ∀ j, j < k → findAt env afterUUID (0 + j) = .ok [] := by
      intro j hj; rw [Nat.zero_add]; exact hidle j hj
    have hsplit : 10 = k + ((9 - k) + 1) := by omega
    have h := pollLoop_idle env afterUUID k ((9 - k) + 1) 0 hidle'
    rw [← hsplit, Nat.zero_add, pollLoop_found env afterUUID (9 - k) k found hfind hne] at h
    exact h
  refine ⟨?_, ?_, ?_, ?_⟩
  · rcases pollLoop_cases env afterUUID 10 0 with ⟨k, found, hk, _, _, _, hloop⟩ | ⟨_, hloop⟩
    · rw [hloop, queries_idleTrace_append, queries_cons_query]
      simp only [queries, List.filter_nil, List.length_nil]
      omega
    · rw [hloop]; decide
  · intro k found hk hidle hfind hne
    have hloop := hfoundAt k found hk hidle hfind hne
    rw [hloop]
    refine ⟨rfl, ?_, ?_⟩
    · rw [queries_idleTrace_append, queries_cons_query]; rfl
    · rw [sleeps_idleTrace_append, sleeps_cons_query]; rfl
  · intro hidle
    have hidle' : ∀ j, j < 10 → findAt env afterUUID (0 + j) = .ok [] := by
      intro j hj; rw [Nat.zero_add]; exact hidle j hj
    have h := pollLoop_idle env afterUUID 10 0 0 hidle'
    simpa [pollLoop] using h
  · rcases pollLoop_cases env afterUUID 10 0 with
      ⟨k, found, hk, _, hfind, hne, hloop⟩ | ⟨hidle, hloop⟩
    · rw [hloop]
      refine ⟨found, rfl, ?_⟩
      constructor
      · intro _
        refine ⟨k, ?_, ?_⟩
        · rw [queries_idleTrace_append, queries_cons_query]
          simp only [queries, List.filter_nil, List.length_nil]
          omega
        · rw [Nat.zero_add] at hfind
          have hnot : ¬ (env.store k).messages.len = 0 := by
            intro h0
            rw [(findAt_nil_iff env afterUUID k).mpr h0] at hfind
            exact hne (Except.ok.inj hfind).symm
          omega
      · intro _; exact hne
    · rw [hloop]
      refine ⟨[], rfl, ?_⟩
      constructor
      · intro h; exact absurd rfl h
      · rintro ⟨j, hj, hpos⟩
        have hj10 : j < 10 := by
          have h10 : queries (idleTrace 10 0) = 10 := by decide
          simp only [h10] at hj
          exact hj
        have h0 := hidle j hj10
        rw [Nat.zero_add] at h0
        have := (findAt_nil_iff env afterUUID j).mp h0
        omega

/-- Witness of C9: a poll without cursor; the store is empty at the first two
attempts and holds one message at the third, which ends the poll after 3 queries
and 2 sleeps with the result of the third query. -/
theorem C9_poll_returns_first_non_empty_result_witness :
    (parseNil (if "" = "" then "00000000-0000-0000-0000-000000000000" else "") = .ok UUID.Nil ∧
      FindMessagesHandler parseNil (envFilledAt 2) "" =
        ⟨.httpOk [Message.zero, callA.message],
          [.query 0, .sleep Second, .query 1, .sleep Second, .query 2]⟩) ∧
    (queries (FindMessagesHandler parseNil (envFilledAt 2) "").trace ≤ 10 ∧
    (∀ k found, k < 10 →
      (∀ j, j < k →
        (((envFilledAt 2).store j).FindMessages (some UUID.Nil)
          ((envFilledAt 2).order j)).1 = .ok []) →
      (((envFilledAt 2).store k).FindMessages (some UUID.Nil)
        ((envFilledAt 2).order k)).1 = .ok found →
      found ≠ [] →
      FindMessagesHandler parseNil (envFilledAt 2) "" =
        ⟨.httpOk found, idleTrace k 0 ++ [.query k]⟩ ∧
      queries (FindMessagesHandler parseNil (envFilledAt 2) "").trace = k + 1 ∧
      sleeps (FindMessagesHandler parseNil (envFilledAt 2) "").trace = k) ∧
    ((∀ j, j < 10 →
        (((envFilledAt 2).store j).FindMessages (some UUID.Nil)
          ((envFilledAt 2).order j)).1 = .ok []) →
      FindMessagesHandler parseNil (envFilledAt 2) "" = ⟨.httpOk [], idleTrace 10 0⟩) ∧
    (∃ body, (FindMessagesHandler parseNil (envFilledAt 2) "").response = .httpOk body ∧
      (body ≠ [] ↔ ∃ j, j < queries (FindMessagesHandler parseNil (envFilledAt 2) "").trace ∧
        0 < ((envFilledAt 2).store j).messages.len))) :=
  ⟨⟨by decide, by decide⟩,
    C9_poll_returns_first_non_empty_result parseNil (envFilledAt 2) "" UUID.Nil (by decide)⟩

/-- C10: for a store holding `n` entries and every cursor, the slice `FindMessages`
returns has length `2 * n`: its first `n` elements are zero-valued messages, its
last `n` elements are a permutation of the values of the store.  For `n ≥ 1` the
result therefore holds the zero-valued message more often than the store does, so
it is no sub-multiset of the store, and when no stored message is zero-valued
(identifiers from `uuid.New()` are never all-zero) the result contains a message
that is not in the store.  The call leaves the store as it was. -/
theorem C10_findMessages_returns_twice_len (service : ChatService) (after : Option UUID)
    (order : List Nat) :
    ∃ found,
      (service.FindMessages after order).1 = .ok found ∧
      found.length = 2 * service.messages.len ∧
      found.take service.messages.len =
        List.replicate service.messages.len (⟨0, 0, ""⟩ : Message) ∧
      (found.drop service.messages.len).Perm service.messages.values ∧
      (found.drop service.messages.len).length = service.messages.len ∧
      (1 ≤ service.messages.len →
        Message.zero ∈ found ∧
        service.messages.values.count Message.zero < found.count Message.zero ∧
        ¬ found.Subperm service.messages.values ∧
        (Message.zero ∉ service.messages.values →
          ∃ m ∈ found, m ∉ service.messages.values)) ∧
      (service.FindMessages after order).2 = service := by
  have hlen : (List.replicate service.messages.len Message.zero).length
      = service.messages.len := List.length_replicate _ _
  have hperm := GoMap.rangeOrder_values_perm order service.messages
  have hcount : (List.replicate service.messages.len Message.zero ++
      (GoMap.rangeOrder order service.messages).map Prod.snd).count Message.zero =
      service.messages.len + service.messages.values.count Message.zero := by
    rw [List.count_append, List.count_replicate_self, hperm.count_eq]
  refine ⟨_, ChatService.FindMessages_fst _ _ _, ?_, ?_, ?_, ?_, ?_, ?_⟩
  · rw [List.length_append, hlen, GoMap.rangeOrder_values_length]; omega
  · rw [List.take_left' hlen]; rfl
  · rw [List.drop_left' hlen]; exact hperm
  · rw [List.drop_left' hlen]; exact GoMap.rangeOrder_values_length _ _
  · intro hn
    have hzero : Message.zero ∈ List.replicate service.messages.len Message.zero ++
        (GoMap.rangeOrder order service.messages).map Prod.snd :=
      List.mem_append_left _ (List.mem_replicate.mpr ⟨by omega, rfl⟩)
    refine ⟨hzero, by rw [hcount]; omega, ?_, fun hnot => ⟨_, hzero, hnot⟩⟩
    intro hsub
    have := hsub.count_le Message.zero
    rw [hcount] at this
    omega
  · rw [ChatService.FindMessages_eq]

/-- Witness of C10: the store that holds the messages `"a"` and `"b"`, ranged over
in the order `"b"`, `"a"`, returns four elements of which the first two are
zero-valued. -/
theorem C10_findMessages_returns_twice_len_witness :
    (1 ≤ (runCreates ChatService.new [callA, callB]).2.messages.len ∧
      Message.zero ∉ (runCreates ChatService.new [callA, callB]).2.messages.values ∧
      ((runCreates ChatService.new [callA, callB]).2.FindMessages (some callA.id) [1]).1 =
        .ok [Message.zero, Message.zero, callB.message, callA.message]) ∧
    ∃ found,
      ((runCreates ChatService.new [callA, callB]).2.FindMessages (some callA.id) [1]).1
        = .ok found ∧
      found.length = 2 * (runCreates ChatService.new [callA, callB]).2.messages.len ∧
      found.take (runCreates ChatService.new [callA, callB]).2.messages.len =
        List.replicate (runCreates ChatService.new [callA, callB]).2.messages.len
          (⟨0, 0, ""⟩ : Message) ∧
      (found.drop (runCreates ChatService.new [callA, callB]).2.messages.len).Perm
        (runCreates ChatService.new [callA, callB]).2.messages.values ∧
      (found.drop (runCreates ChatService.new [callA, callB]).2.messages.len).length =
        (runCreates ChatService.new [callA, callB]).2.messages.len ∧
      (1 ≤ (runCreates ChatService.new [callA, callB]).2.messages.len →
        Message.zero ∈ found ∧
        (runCreates ChatService.new [callA, callB]).2.messages.values.count Message.zero
          < found.count Message.zero ∧
        ¬ found.Subperm (runCreates ChatService.new [callA, callB]).2.messages.values ∧
        (Message.zero ∉ (runCreates ChatService.new [callA, callB]).2.messages.values →
          ∃ m ∈ found, m ∉ (runCreates ChatService.new [callA, callB]).2.messages.values)) ∧
      ((runCreates ChatService.new [callA, callB]).2.FindMessages (some callA.id) [1]).2 =
        (runCreates ChatService.new [callA, callB]).2 :=
  ⟨⟨by decide, by decide, by decide⟩,
    C10_findMessages_returns_twice_len (runCreates ChatService.new [callA, callB]).2
      (some callA.id) [1]⟩

end LongPolling
